import Mathlib

/-!
Verification development for the IPMAS poverty-prediction pipeline.

The Python sources are shallowly embedded over a small pandas-like data
model:

* a cell value (`Val`) is a rational number, a missing marker (`nan`,
  modelling `np.nan`), a signed infinity (modelling IEEE `inf`), or a
  string (modelling survey label strings held in object columns);
* a column (`Col`) carries its name, its dtype (`numeric` for the
  numeric dtypes selected by `select_dtypes(include=[np.number])`,
  `object` for object/category columns), and its cell list;
* a table (`DataFrame`) is the list of its columns.

Arithmetic on `Val` follows numpy elementwise float semantics: `nan`
propagates, division by zero yields a signed infinity (or `nan` for
0/0), comparisons against `nan` are false.  String cells model
non-numeric survey labels; arithmetic on them yields `nan`, matching
`pd.to_numeric(errors=coerce)` coercion behaviour at the places the
sources apply arithmetic only after such coercion.

Randomness (`np.random.*`) is modelled by an explicit stream of draws
(`Rng`), and sklearn `random_state` resolution by `resolveSeed`: a
literal seed is used as given, `None` falls back to the global
generator, exactly as the library documents.
-/

namespace IPMAS

/-- A pandas/numpy cell value: rational, missing (`NaN`), signed infinity,
or a label string held in an object column. -/
inductive Val where
  | nan : Val
  | inf : Val
  | ninf : Val
  | num : ℚ → Val
  | str : String → Val
deriving DecidableEq

/-- Column dtype: `numeric` abstracts the numpy numeric dtypes,
`object` the object/category dtypes. -/
inductive Dtype where
  | numeric : Dtype
  | object : Dtype
deriving DecidableEq

/-- A named, typed column of cells. -/
structure Col where
  name : String
  dtype : Dtype
  vals : List Val
deriving DecidableEq

/-- A table is its list of columns. -/
abbrev DataFrame := List Col

namespace Val

/-- Numeric negation with IEEE special values. -/
def neg : Val → Val
  | nan => nan
  | inf => ninf
  | ninf => inf
  | num a => num (-a)
  | str _ => nan

/-- Numeric addition with IEEE special values (`inf + -inf = nan`). -/
def add : Val → Val → Val
  | nan, _ => nan
  | _, nan => nan
  | str _, _ => nan
  | _, str _ => nan
  | inf, ninf => nan
  | ninf, inf => nan
  | inf, _ => inf
  | _, inf => inf
  | ninf, _ => ninf
  | _, ninf => ninf
  | num a, num b => num (a + b)

/-- Numeric subtraction. -/
def sub (a b : Val) : Val := add a (neg b)

/-- Numeric multiplication with IEEE special values (`inf * 0 = nan`). -/
def mul : Val → Val → Val
  | nan, _ => nan
  | _, nan => nan
  | str _, _ => nan
  | _, str _ => nan
  | num a, num b => num (a * b)
  | inf, num b => if 0 < b then inf else if b < 0 then ninf else nan
  | num a, inf => if 0 < a then inf else if a < 0 then ninf else nan
  | ninf, num b => if 0 < b then ninf else if b < 0 then inf else nan
  | num a, ninf => if 0 < a then ninf else if a < 0 then inf else nan
  | inf, inf => inf
  | inf, ninf => ninf
  | ninf, inf => ninf
  | ninf, ninf => inf

/-- Numeric division with numpy float semantics: a nonzero number divided
by zero is a signed infinity, `0 / 0` is `nan` (the rational zero models
IEEE `+0`). -/
def div : Val → Val → Val
  | nan, _ => nan
  | _, nan => nan
  | str _, _ => nan
  | _, str _ => nan
  | num a, num b =>
      if b = 0 then (if a = 0 then nan else if 0 < a then inf else ninf)
      else num (a / b)
  | num _, inf => num 0
  | num _, ninf => num 0
  | inf, num b => if 0 ≤ b then inf else ninf
  | ninf, num b => if 0 ≤ b then ninf else inf
  | inf, inf => nan
  | inf, ninf => nan
  | ninf, inf => nan
  | ninf, ninf => nan

/-- Absolute value. -/
def abs : Val → Val
  | nan => nan
  | inf => inf
  | ninf => inf
  | num a => num |a|
  | str _ => nan

end Val

/-- Strict `<` on cells, false on `nan` (IEEE comparison semantics).
String cells never compare. -/
def valLtB : Val → Val → Bool
  | Val.nan, _ => false
  | _, Val.nan => false
  | Val.str _, _ => false
  | _, Val.str _ => false
  | Val.ninf, Val.ninf => false
  | Val.ninf, _ => true
  | Val.inf, _ => false
  | Val.num _, Val.ninf => false
  | Val.num a, Val.num b => decide (a < b)
  | Val.num _, Val.inf => true

/-- Non-strict `≤` on cells, false whenever `nan` is involved. -/
def valLeB (a b : Val) : Bool :=
  match a, b with
  | Val.num x, Val.num y => decide (x ≤ y)
  | _, _ => valLtB a b || (a == b && !(a == Val.nan))

/-- Strict `>` on cells. -/
def valGtB (a b : Val) : Bool := valLtB b a

/-- Is the cell the missing marker? -/
def valIsNan : Val → Bool
  | Val.nan => true
  | _ => false

/-- Is the cell a string? -/
def valIsStr : Val → Bool
  | Val.str _ => true
  | _ => false

/-- Substring test on character lists: does the second list occur at the
head of the first? -/
def startsWithChars : List Char → List Char → Bool
  | _, [] => true
  | [], _ :: _ => false
  | h :: hs, p :: ps => h == p && startsWithChars hs ps

/-- Substring containment on character lists (Python `pat in hay`). -/
def containsChars : List Char → List Char → Bool
  | [], ps => ps.isEmpty
  | h :: hs, ps => startsWithChars (h :: hs) ps || containsChars hs ps

/-- Substring containment on strings (Python `pat in hay`). -/
def strContainsSub (hay pat : String) : Bool :=
  containsChars hay.data pat.data

/-- ASCII lowering of one character (Python `str.lower` on the ASCII
column names of these datasets). -/
def lowerChar (c : Char) : Char :=
  if 'A' ≤ c ∧ c ≤ 'Z' then Char.ofNat (c.toNat + 32) else c

/-- ASCII lowering of a string. -/
def strToLower (s : String) : String := ⟨s.data.map lowerChar⟩

/-- Keep the first occurrence of each string, dropping later duplicates
(the set-based dedup of `list(set(...))`, modelled with first-occurrence
order). -/
def dedupKeepAux (seen : List String) : List String → List String
  | [] => []
  | h :: t =>
      if seen.contains h then dedupKeepAux seen t
      else h :: dedupKeepAux (h :: seen) t

/-- Deduplicate a list of strings keeping first occurrences. -/
def dedupKeep (l : List String) : List String := dedupKeepAux [] l

/-- Keep the first occurrence of each cell value (used for `nunique`). -/
def dedupValsAux (seen : List Val) : List Val → List Val
  | [] => []
  | h :: t =>
      if seen.contains h then dedupValsAux seen t
      else h :: dedupValsAux (h :: seen) t

/-- Deduplicate a list of cells keeping first occurrences. -/
def dedupVals (l : List Val) : List Val := dedupValsAux [] l

/-- Insert a cell into a sorted list of cells. -/
def insertVal (v : Val) : List Val → List Val
  | [] => [v]
  | h :: t => if valLeB v h then v :: h :: t else h :: insertVal v t

/-- Insertion sort on cells (only ever applied to lists without `nan`). -/
def sortVals : List Val → List Val
  | [] => []
  | h :: t => insertVal h (sortVals t)

/-- Maximum of a series, skipping `nan` (pandas `Series.max`). -/
def seriesMax (vs : List Val) : Val :=
  vs.foldl
    (fun acc v =>
      if v == Val.nan then acc
      else if acc == Val.nan then v
      else if valLtB acc v then v else acc)
    Val.nan

/-- Minimum of a series, skipping `nan` (pandas `Series.min`). -/
def seriesMin (vs : List Val) : Val :=
  vs.foldl
    (fun acc v =>
      if v == Val.nan then acc
      else if acc == Val.nan then v
      else if valLtB v acc then v else acc)
    Val.nan

/-- Sum of a series, skipping `nan`; the empty sum is `0`
(pandas `Series.sum`). -/
def seriesSum (vs : List Val) : Val :=
  vs.foldl (fun acc v => if v == Val.nan then acc else Val.add acc v) (Val.num 0)

/-- Median of a series: sort the non-missing cells and take the middle
cell, or the mean of the two middle cells (`np.nanmedian`); `nan` when
no cell remains. -/
def seriesMedian (vs : List Val) : Val :=
  let ys := sortVals (vs.filter (fun v => !(v == Val.nan)))
  let n := ys.length
  if n = 0 then Val.nan
  else if n % 2 = 1 then ys.getD (n / 2) Val.nan
  else Val.mul (Val.num (1/2))
    (Val.add (ys.getD (n / 2 - 1) Val.nan) (ys.getD (n / 2) Val.nan))

/-- Linear interpolation at a rational position in a sorted cell list
(numpy percentile interpolation). -/
def interpolateAt (ys : List Val) (pos : ℚ) : Val :=
  let i : ℕ := Int.toNat ⌊pos⌋
  let f : ℚ := pos - ⌊pos⌋
  if f = 0 then ys.getD i Val.nan
  else Val.add (ys.getD i Val.nan)
    (Val.mul (Val.num f) (Val.sub (ys.getD (i+1) Val.nan) (ys.getD i Val.nan)))

/-- Quantile of a series with linear interpolation, skipping `nan`
(pandas `Series.quantile`); `nan` when no cell remains. -/
def seriesQuantile (vs : List Val) (q : ℚ) : Val :=
  let ys := sortVals (vs.filter (fun v => !(v == Val.nan)))
  if ys.isEmpty then Val.nan
  else interpolateAt ys (q * ((ys.length : ℚ) - 1))

/-- Names of the columns of a table, in order. -/
def names (df : DataFrame) : List String := df.map (fun c => c.name)

/-- Does the table have a column with this name? -/
def hasCol (df : DataFrame) (n : String) : Bool := (names df).contains n

/-- First column with this name, if any. -/
def getCol (df : DataFrame) (n : String) : Option Col :=
  df.find? (fun c => c.name == n)

/-- Cells of the first column with this name (empty when absent). -/
def getVals (df : DataFrame) (n : String) : List Val :=
  ((getCol df n).map (fun c => c.vals)).getD []

/-- Dtype of the first column with this name (`numeric` when absent). -/
def colDtype (df : DataFrame) (n : String) : Dtype :=
  ((getCol df n).map (fun c => c.dtype)).getD Dtype.numeric

/-- Row count of a table (`len(df)`), read off the first column. -/
def nrows (df : DataFrame) : ℕ :=
  match df with
  | [] => 0
  | c :: _ => c.vals.length

/-- Assign a column (`df[n] = vals`): replace every column labelled `n`,
or append a new column when the label is absent. -/
def setCol (df : DataFrame) (n : String) (dt : Dtype) (vs : List Val) : DataFrame :=
  if (names df).contains n then
    df.map (fun c => if c.name = n then ⟨n, dt, vs⟩ else c)
  else df ++ [⟨n, dt, vs⟩]

/-- Drop every column whose name satisfies the predicate. -/
def dropCols (df : DataFrame) (p : String → Bool) : DataFrame :=
  df.filter (fun c => !(p c.name))

/-- Drop every column with the given name (`df.drop(columns=[n])`). -/
def dropColByName (df : DataFrame) (n : String) : DataFrame :=
  dropCols df (fun m => m == n)

/-- Names (in order) of the numeric-dtype columns
(`select_dtypes(include=[np.number]).columns`). -/
def numericNames (df : DataFrame) : List String :=
  names (df.filter (fun c => c.dtype == Dtype.numeric))

/-- The stream of pseudo-random draws consumed by the `np.random.*`
fallback branches.  The concrete distribution is irrelevant to every
verified property; the stream models the state of the global generator. -/
structure Rng where
  draw : ℕ → ℚ

/-!
Embedding of `preprocessing.py` (`DataPreprocessor`): the DHS cleaning
steps composed by `process_all_datasets` on DHS inputs, namely
`clean_dhs_data`, `handle_outliers` (default `iqr` method) and
`impute_missing_values` (default `median` strategy).
-/

/-- The DHS sentinel missing-value codes replaced by `clean_dhs_data`. -/
def sentinelList : List Val := [Val.num 996, Val.num 997, Val.num 998, Val.num 999]

/-- Replace a sentinel code by the missing marker
(`replace([996, 997, 998, 999], np.nan)`). -/
def sentinelCell (v : Val) : Val :=
  if sentinelList.contains v then Val.nan else v

/-- Replace a cell equal to the column maximum by the missing marker
(`replace([df[col].max()], np.nan)`). -/
def replaceMaxCell (m v : Val) : Val := if v = m then Val.nan else v

/-- Per-column sentinel handling of `clean_dhs_data` (lines 33-37):
on numeric columns, replace the sentinel codes by `nan`, and when the
maximum of the resulting column exceeds 10000, also replace the cells
equal to that maximum. -/
def cleanColStep (c : Col) : Col :=
  if c.dtype = Dtype.numeric then
    let vs := c.vals.map sentinelCell
    let m := seriesMax vs
    if valGtB m (Val.num 10000) then ⟨c.name, c.dtype, vs.map (replaceMaxCell m)⟩
    else ⟨c.name, c.dtype, vs⟩
  else c

/-- Sentinel/maximum replacement over the whole table. -/
def replaceSentinelsAndMax (df : DataFrame) : DataFrame :=
  df.map cleanColStep

/-- Number of missing cells in a series. -/
def nanCount (vs : List Val) : ℕ := (vs.filter (fun v => v == Val.nan)).length

/-- Drop every column whose missing fraction exceeds 0.8
(`clean_dhs_data` lines 40-48).  With zero rows the Python fraction is
numpy `nan` and the comparison is false, so nothing is dropped. -/
def dropHighMissing (df : DataFrame) : DataFrame :=
  let n := nrows df
  df.filter (fun c => !(decide (n ≠ 0 ∧ (4/5 : ℚ) < (nanCount c.vals : ℚ) / (n : ℚ))))

/-- Coerce infinities to missing on numeric columns
(`replace([np.inf, -np.inf], np.nan)`). -/
def replaceInfNanNumeric (df : DataFrame) : DataFrame :=
  df.map (fun c =>
    if c.dtype = Dtype.numeric then
      ⟨c.name, c.dtype,
        c.vals.map (fun v => if v == Val.inf || v == Val.ninf then Val.nan else v)⟩
    else c)

/-- Remove exact duplicate rows, keeping first occurrences
(`drop_duplicates`; pandas treats equal `NaN` cells as equal here). -/
def dedupRows (df : DataFrame) : DataFrame :=
  let n := nrows df
  let rowAt : ℕ → List Val := fun i => df.map (fun c => c.vals.getD i Val.nan)
  let keep := (List.range n).filter
    (fun i => ((List.range n).filter (fun j => decide (j < i) && decide (rowAt j = rowAt i))).isEmpty)
  df.map (fun c => ⟨c.name, c.dtype, keep.map (fun i => c.vals.getD i Val.nan)⟩)

/-- Embedding of `clean_dhs_data`: sentinel/maximum replacement, high-missingness
column drop, infinity coercion, duplicate-row removal. -/
def cleanDhsData (df : DataFrame) : DataFrame :=
  dedupRows (replaceInfNanNumeric (dropHighMissing (replaceSentinelsAndMax df)))

/-- Clip a cell to bounds, pandas style: `nan` cells stay `nan`, `nan`
bounds are ignored. -/
def clipCell (v lo hi : Val) : Val :=
  match v with
  | Val.nan => Val.nan
  | _ =>
      let v1 := if valIsNan lo then v else if valLtB v lo then lo else v
      if valIsNan hi then v1 else if valLtB hi v1 then hi else v1

/-- Embedding of `handle_outliers` with the default `iqr` method: clip every numeric
column to `[Q1 - 1.5*IQR, Q3 + 1.5*IQR]`. -/
def handleOutliersIqr (df : DataFrame) : DataFrame :=
  df.map (fun c =>
    if c.dtype = Dtype.numeric then
      let q1 := seriesQuantile c.vals (1/4)
      let q3 := seriesQuantile c.vals (3/4)
      let iqr := Val.sub q3 q1
      let lo := Val.sub q1 (Val.mul (Val.num (3/2)) iqr)
      let hi := Val.add q3 (Val.mul (Val.num (3/2)) iqr)
      ⟨c.name, c.dtype, c.vals.map (fun v => clipCell v lo hi)⟩
    else c)

/-- Embedding of `impute_missing_values` with the default `median` strategy: fill
missing numeric cells with the column median and missing object cells
with the label `Unknown`. -/
def imputeMissingValues (df : DataFrame) : DataFrame :=
  df.map (fun c =>
    if c.dtype = Dtype.numeric then
      let m := seriesMedian c.vals
      ⟨c.name, c.dtype, c.vals.map (fun v => if v == Val.nan then m else v)⟩
    else
      ⟨c.name, c.dtype, c.vals.map (fun v => if v == Val.nan then Val.str "Unknown" else v)⟩)

/-- The Cleaner as composed by `process_all_datasets` on DHS tables:
`clean_dhs_data`, then `handle_outliers`, then `impute_missing_values`. -/
def cleanerOutput (df : DataFrame) : DataFrame :=
  imputeMissingValues (handleOutliersIqr (cleanDhsData df))

/-!
Embedding of `ml_pipeline.py` (`PovertyMLPipeline.create_features`),
specialised to the configuration where only DHS household data is
present — the configuration produced by the preferred processed-CSV
path of `load_dhs_data`, which returns the household table with
`individual`, `gps` set to `None` and with empty FAOSTAT/KNBS/World
Bank inputs.  All merge steps for the absent sources are skipped by
the source code in this configuration, so the embedding covers exactly
the household feature selection, the derived features, the categorical
conversion, the missing-value handling, the target construction and
the final cleanup.
-/

/-- The leakage exclusion list of `create_features` (line 265). -/
def excludeCols : List String := ["hv270", "hv271", "hv271a", "poverty_index"]

/-- Numeric household columns minus the exclusion list (lines 268-271). -/
def numericNonExcluded (hh : DataFrame) : List String :=
  (numericNames hh).filter (fun c => !(excludeCols.contains c))

/-- Education keyword patterns (line 277). -/
def eduPatterns : List String := ["hv106", "hv107", "v106", "v107", "education"]

/-- Household-composition keyword patterns (line 283). -/
def compPatterns : List String :=
  ["hv009", "hv012", "hv013", "hv014", "hv015", "household", "member"]

/-- Housing keyword patterns (line 289). -/
def housingPatterns : List String :=
  ["hv201", "hv204", "hv213", "hv214", "hv215", "hv216", "hv218",
   "housing", "roof", "wall", "floor"]

/-- Water/sanitation keyword patterns (line 295). -/
def waterPatterns : List String :=
  ["hv201", "hv202", "hv204", "hv205", "hv225", "hv230a",
   "water", "toilet", "sanitation"]

/-- Asset keyword patterns (line 301). -/
def assetPatterns : List String :=
  ["hv206", "hv207", "hv208", "hv210", "hv211", "hv212", "hv221",
   "hv243", "hv244", "hv245",
   "asset", "radio", "tv", "refrigerator", "bicycle", "car", "mobile"]

/-- Health keyword patterns (line 307). -/
def healthPatterns : List String :=
  ["hv234", "sh69a", "health", "nutrition", "iodized", "mosquito"]

/-- All keyword patterns, in the order the groups are scanned. -/
def allPatterns : List String :=
  eduPatterns ++ compPatterns ++ housingPatterns ++ waterPatterns ++
    assetPatterns ++ healthPatterns

/-- Raw keyword matches: for each pattern in scan order, the numeric
candidate columns whose lowercased name contains the pattern
(lines 274-310, with duplicates). -/
def keywordMatchedRaw (ncols : List String) : List String :=
  (allPatterns.map (fun p => ncols.filter (fun c => strContainsSub (strToLower c) p))).flatten

/-- The keyword-matched candidate set after dedup and exclusion
filtering (lines 312-314). -/
def keywordMatchedCols (hh : DataFrame) : List String :=
  (dedupKeep (keywordMatchedRaw (numericNonExcluded hh))).filter
    (fun c => !(excludeCols.contains c))

/-- Candidate set after the first widening step: when fewer than 30
keyword matches were found, up to 50 further numeric columns are added
(lines 316-324), then dedup and exclusion filtering run again. -/
def widenedCols (hh : DataFrame) : List String :=
  let ncols := numericNonExcluded hh
  let k := keywordMatchedCols hh
  let f :=
    if k.length < 30 then
      k ++ (ncols.filter (fun c => !(k.contains c) && !(excludeCols.contains c))).take 50
    else k
  (dedupKeep f).filter (fun c => !(excludeCols.contains c))

/-- The widened candidates restricted to columns present in the
household table (line 327; the restriction never removes anything,
since candidates are drawn from the household columns). -/
def availableCols (hh : DataFrame) : List String :=
  (widenedCols hh).filter (fun c => (names hh).contains c)

/-- Final feature-column selection (lines 329-333): when fewer than 20
candidates remain, fall back to all numeric non-excluded columns,
capped at 100. -/
def selectFeatureCols (hh : DataFrame) : List String :=
  if (availableCols hh).length < 20 then
    ((numericNonExcluded hh).filter (fun c => (names hh).contains c)).take 100
  else availableCols hh

/-- Base feature table (lines 337-345): the selected household columns,
or two randomly generated basic columns when no feature column was
found. -/
def mkBaseFeatures (hh : DataFrame) (rng : Rng) : DataFrame :=
  let avail := selectFeatureCols hh
  if avail.isEmpty then
    [⟨"household_size", Dtype.numeric,
        (List.range (nrows hh)).map (fun i => Val.num (rng.draw i))⟩,
     ⟨"education_level", Dtype.numeric,
        (List.range (nrows hh)).map (fun i => Val.num (rng.draw (nrows hh + i)))⟩]
  else avail.filterMap (fun n => getCol hh n)

/-- Ordered pairs `(top[i], top[j])` with `i < j` (the double loop of
lines 472-475). -/
def orderedPairs : List String → List (String × String)
  | [] => []
  | c :: rest => rest.map (fun d => (c, d)) ++ orderedPairs rest

/-- Ratio-feature step for one column (lines 463-467): when the column
sum is defined and positive, add a `_per_person` column dividing by
`household_size + 1`. -/
def addRatioStep (acc : DataFrame) (colName : String) : DataFrame :=
  if colName = "household_size" then acc
  else
    let s := seriesSum (getVals acc colName)
    if !(valIsNan s) && valGtB s (Val.num 0) then
      setCol acc (colName ++ "_per_person") Dtype.numeric
        (List.zipWith (fun a b => Val.div a (Val.add b (Val.num 1)))
          (getVals acc colName) (getVals acc "household_size"))
    else acc

/-- Interaction step for one ordered pair (lines 472-475). -/
def addInterStep (acc : DataFrame) (p : String × String) : DataFrame :=
  if p.1 = p.2 then acc
  else
    setCol acc (p.1 ++ "_x_" ++ p.2) Dtype.numeric
      (List.zipWith Val.mul (getVals acc p.1) (getVals acc p.2))

/-- Key-feature search (lines 478-483): the first current column whose
lowercased name contains `wealth`, else `education`, else `income`. -/
def findKeyFeature (ns : List String) : Option String :=
  match ns.filter (fun c => strContainsSub (strToLower c) "wealth") with
  | m :: _ => some m
  | [] =>
      match ns.filter (fun c => strContainsSub (strToLower c) "education") with
      | m :: _ => some m
      | [] =>
          match ns.filter (fun c => strContainsSub (strToLower c) "income") with
          | m :: _ => some m
          | [] => none

/-- Derived features (lines 457-486): per-person ratios on the first
three numeric columns when `household_size` is present, pairwise
interactions on the first five numeric columns, and a squared term for
the key feature. -/
def addDerivedFeatures (X0 : DataFrame) : DataFrame :=
  let ncols := numericNames X0
  let X1 :=
    if (names X0).contains "household_size" && decide (1 < ncols.length) then
      (ncols.take 3).foldl addRatioStep X0
    else X0
  let top := ncols.take 5
  let X2 :=
    if 2 ≤ top.length then (orderedPairs top).foldl addInterStep X1 else X1
  match findKeyFeature (names X2) with
  | some k =>
      setCol X2 (k ++ "_squared") Dtype.numeric
        ((getVals X2 k).map (fun v => Val.mul v v))
  | none => X2

/-- Coercion of one cell by `pd.to_numeric(errors=coerce)`:
label strings become `nan`, numeric cells are unchanged. -/
def toNumericCell : Val → Val
  | Val.str _ => Val.nan
  | v => v

/-- Categorical conversion (lines 488-509): coerce each object column
to numeric, dropping it when the coercion leaves no value. -/
def convertCategoricals (X : DataFrame) : DataFrame :=
  X.filterMap (fun c =>
    if c.dtype = Dtype.object then
      let conv := c.vals.map toNumericCell
      if conv.all (fun v => v == Val.nan) then none
      else some ⟨c.name, Dtype.numeric, conv⟩
    else some c)

/-- Fill missing numeric cells with the column median
(lines 514-516 and 520). -/
def fillnaMedianNumeric (X : DataFrame) : DataFrame :=
  X.map (fun c =>
    if c.dtype = Dtype.numeric then
      let m := seriesMedian c.vals
      ⟨c.name, c.dtype, c.vals.map (fun v => if v == Val.nan then m else v)⟩
    else c)

/-- Missing-value handling of `create_features` (lines 511-520):
median fill, infinity coercion, median fill again. -/
def fillMissing (X : DataFrame) : DataFrame :=
  fillnaMedianNumeric (replaceInfNanNumeric (fillnaMedianNumeric X))

/-- Numeric quintile-to-score map with default
(`map({1: 90, 2: 70, 3: 50, 4: 30, 5: 10}).fillna(50)`, lines 561-563). -/
def quintileScoreNum (v : Val) : Val :=
  match v with
  | Val.num q =>
      if q = 1 then Val.num 90
      else if q = 2 then Val.num 70
      else if q = 3 then Val.num 50
      else if q = 4 then Val.num 30
      else if q = 5 then Val.num 10
      else Val.num 50
  | _ => Val.num 50

/-- String quintile-to-score map with default
(`map(quintile_map).fillna(50)`, lines 550-566). -/
def quintileScoreStr (v : Val) : Val :=
  match v with
  | Val.str s =>
      if s = "poorest" then Val.num 90
      else if s = "poorer" then Val.num 70
      else if s = "middle" then Val.num 50
      else if s = "richer" then Val.num 30
      else if s = "richest" then Val.num 10
      else Val.num 50
  | _ => Val.num 50

/-- Search for a wealth-quintile column: the first column whose
lowercased name contains `hv270` and which is not named `hv271`
(lines 527-530). -/
def findHv270Col (X : DataFrame) : Option String :=
  (names X).find? (fun c => strContainsSub (strToLower c) "hv270" && !(c == "hv271"))

/-- Authoritative target attachment (lines 546-578): map the quintile
column through the numeric or string score table according to its
dtype, attach the result as `poverty_index`, drop the quintile column,
then drop every column whose name contains `hv271`. -/
def attachAuthoritative (X : DataFrame) (wqc : String) : DataFrame :=
  let scores :=
    match getCol X wqc with
    | some col =>
        if col.dtype = Dtype.numeric then col.vals.map quintileScoreNum
        else col.vals.map quintileScoreStr
    | none => []
  let X1 := setCol X "poverty_index" Dtype.numeric scores
  let X2 := dropColByName X1 wqc
  dropCols X2 (fun n => strContainsSub (strToLower n) "hv271")

/-- Search for a fallback wealth column: the first column whose
lowercased name contains `wealth` or `hv271` (lines 585-589). -/
def findWealthCol (X : DataFrame) : Option String :=
  (names X).find?
    (fun c => strContainsSub (strToLower c) "wealth" || strContainsSub (strToLower c) "hv271")

/-- Min-max normalised inversion of one cell against column statistics:
`(1 - (v - min) / (max - min + 1e-6)) * 100` (lines 593-594). -/
def invNormCell (mn denom v : Val) : Val :=
  Val.mul (Val.sub (Val.num 1) (Val.div (Val.sub v mn) denom)) (Val.num 100)

/-- Contribution of one column to the synthetic target
(lines 603-605): `weight * (1 - col_norm) * 100`, left associated. -/
def synthContribution (X : DataFrame) (w : Val) (colName : String) : List Val :=
  let vs := getVals X colName
  let mn := seriesMin vs
  let denom := Val.add (Val.sub (seriesMax vs) mn) (Val.num (1/1000000))
  vs.map (fun v =>
    Val.mul (Val.mul w (Val.sub (Val.num 1) (Val.div (Val.sub v mn) denom)))
      (Val.num 100))

/-- Fallback/synthetic target attachment (lines 579-607): derive
`poverty_index` from a wealth-like column when one exists (keeping that
column — the leakage the code itself warns about), else from a random
weighted combination of up to five numeric columns, else from random
draws. -/
def attachFallback (X : DataFrame) (rng : Rng) : DataFrame :=
  match findWealthCol X with
  | some wc =>
      let vs := getVals X wc
      let mn := seriesMin vs
      let denom := Val.add (Val.sub (seriesMax vs) mn) (Val.num (1/1000000))
      setCol X "poverty_index" Dtype.numeric (vs.map (invNormCell mn denom))
  | none =>
      let nc := (numericNames X).take 5
      if nc.isEmpty then
        setCol X "poverty_index" Dtype.numeric
          ((List.range (nrows X)).map (fun i => Val.num (rng.draw i)))
      else
        let ws := (List.range nc.length).map rng.draw
        let s := ws.foldl (fun a b => a + b) 0
        let pov := (nc.zip ws).foldl
          (fun acc p =>
            List.zipWith Val.add acc
              (synthContribution X (Val.div (Val.num p.2) (Val.num s)) p.1))
          (List.replicate (nrows X) (Val.num 0))
        setCol X "poverty_index" Dtype.numeric pov

/-- Pairing of the raw household join keys with the raw quintile cells
(`set_index(v001)[hv270].to_dict()`; a duplicated key keeps its last
quintile, as in the Python dict). -/
def lookupLast (l : List (Val × Val)) (k : Val) : Option Val :=
  ((l.filter (fun p => p.1 == k)).getLast?).map (fun p => p.2)

/-- Target construction (lines 522-607): skip when `poverty_index`
already exists; otherwise find a quintile column in the features, or
recover `hv270` from the raw household table by cluster join or by
positional assignment, and attach the authoritative target; otherwise
fall back to the synthetic target. -/
def attachTarget (X : DataFrame) (hh : DataFrame) (rng : Rng) : DataFrame :=
  if hasCol X "poverty_index" then X
  else
    match findHv270Col X with
    | some wqc => attachAuthoritative X wqc
    | none =>
        if hasCol hh "hv270" then
          if hasCol X "v001" && hasCol hh "v001" then
            let qm := (getVals hh "v001").zip (getVals hh "hv270")
            let mapped := (getVals X "v001").map
              (fun v => (lookupLast qm v).getD Val.nan)
            attachAuthoritative (setCol X "hv270" (colDtype hh "hv270") mapped) "hv270"
          else if nrows X == nrows hh then
            attachAuthoritative
              (setCol X "hv270" (colDtype hh "hv270") (getVals hh "hv270")) "hv270"
          else attachFallback X rng
        else attachFallback X rng

/-- Does a column hold at most one distinct non-missing value?
(`nunique() <= 1`, which counts distinct non-`NaN` values). -/
def nuniqueLe1 (vs : List Val) : Bool :=
  (dedupVals (vs.filter (fun v => !(v == Val.nan)))).length ≤ 1

/-- Final cleanup of `create_features` (lines 609-620): drop constant
columns, then keep only numeric-dtype columns. -/
def finalCleanup (X : DataFrame) : DataFrame :=
  (X.filter (fun c => !(nuniqueLe1 c.vals))).filter
    (fun c => c.dtype == Dtype.numeric)

/-- Embedding of `create_features` in the household-only configuration: feature
selection, derived features, categorical conversion, missing-value
handling, target construction, final cleanup. -/
def createFeatures (hh : DataFrame) (rng : Rng) : DataFrame :=
  finalCleanup
    (attachTarget
      (fillMissing (convertCategoricals (addDerivedFeatures (mkBaseFeatures hh rng))))
      hh rng)

/-!
Embedding of the Model Trainer interface
(`prepare_train_test_split`, `train_models`): the sklearn collaborators
are abstract functions of their inputs and of an explicit seed; the
global pseudo-random generator is an explicit parameter, consulted only
when a seed of `none` is resolved, exactly as sklearn documents
`random_state`.
-/

/-- The outcome of `train_test_split`. -/
structure SplitOut where
  trainX : DataFrame
  testX : DataFrame
  trainY : List Val
  testY : List Val

/-- Abstract `train_test_split`: features, target, `test_size`,
resolved `random_state`, `shuffle`. -/
abbrev SplitFn := DataFrame → List Val → ℚ → ℕ → Bool → SplitOut

/-- Resolution of an sklearn `random_state`: a literal seed is used as
given, `None` consults the global generator. -/
def resolveSeed (globalRng : ℕ → ℕ) (seed : Option ℕ) : ℕ :=
  match seed with
  | some s => s
  | none => globalRng 0

/-- Embedding of `prepare_train_test_split` (lines 626-664): raise when the target
column is absent; otherwise separate the target, drop the residual
leakage columns (names containing `hv271` but not `hv270`), keep
numeric columns, coerce infinities, fill medians, and split 80/20
with the literal seed 42. -/
def prepareTrainTestSplit (split : SplitFn) (globalRng : ℕ → ℕ)
    (featuresDf : DataFrame) : Except String SplitOut :=
  if hasCol featuresDf "poverty_index" then
    let y := getVals featuresDf "poverty_index"
    let X0 := dropColByName featuresDf "poverty_index"
    let X1 := dropCols X0
      (fun c => strContainsSub (strToLower c) "hv271" && !(strContainsSub (strToLower c) "hv270"))
    let X2 := X1.filter (fun c => c.dtype == Dtype.numeric)
    let X3 := fillnaMedianNumeric (replaceInfNanNumeric X2)
    Except.ok (split X3 y (1/5) (resolveSeed globalRng (some 42)) true)
  else Except.error "Target variable poverty_index not found"

/-- The Random Forest hyperparameters fixed by `train_models`
(lines 676-683). -/
structure RFHyper where
  nEstimators : ℕ
  maxDepth : ℕ
  minSamplesSplit : ℕ
  minSamplesLeaf : ℕ
  randomState : Option ℕ

/-- The literal hyperparameters of `train_models`, including
`random_state=42`. -/
def rfHyperConfig : RFHyper := ⟨100, 10, 5, 2, some 42⟩

/-- Abstract estimator fit: hyperparameters, resolved seed, training
features and target, yielding a prediction function on row vectors. -/
abbrev FitFn := RFHyper → ℕ → DataFrame → List Val → (List ℚ → ℚ)

/-- The trainer pipeline on a fixed test vector: split the feature
table with `prepare_train_test_split`, fit the Random Forest of
`train_models` with its literal seed, and predict. -/
def trainRFAndPredict (split : SplitFn) (fit : FitFn) (featuresDf : DataFrame)
    (globalRng : ℕ → ℕ) (testVec : List ℚ) : Except String ℚ :=
  match prepareTrainTestSplit split globalRng featuresDf with
  | Except.error e => Except.error e
  | Except.ok s =>
      let model := fit rfHyperConfig (resolveSeed globalRng rfHyperConfig.randomState)
        s.trainX s.trainY
      Except.ok (model testVec)

/-!
Embedding of `evaluate_model_accuracy.py` (lines 88-91): the percent
error series and the within-tolerance fractions.
-/

/-- One cell of `np.abs((y_test - y_pred) / y_test * 100)`. -/
def errorPercentCell (yActual yPred : Val) : Val :=
  Val.abs (Val.mul (Val.div (Val.sub yActual yPred) yActual) (Val.num 100))

/-- The elementwise percent-error series. -/
def errorPercentSeries (ys ps : List Val) : List Val :=
  List.zipWith errorPercentCell ys ps

/-- The fraction `(error_percent <= bound).mean() * 100`: comparisons against `nan`
or `inf` are false; the mean of an empty series is `nan`. -/
def withinFraction (bound : ℚ) (errs : List Val) : Val :=
  if errs.length = 0 then Val.nan
  else
    Val.num
      ((((errs.filter (fun e => valLeB e (Val.num bound))).length : ℚ) /
          (errs.length : ℚ)) * 100)

/-!
Embedding of `ml_predict.py` (`predict`, lines 36-49): the feature
vector is rebuilt in the saved feature-name order with default 0, and
the abstract model is applied to it.
-/

/-- The comprehension `[household_data.get(f, 0) for f in features]`. -/
def buildFeatureVector (householdData : List (String × ℚ)) (features : List String) :
    List ℚ :=
  features.map (fun f => (householdData.lookup f).getD 0)

/-- The call `model.predict(df)[0]` on the rebuilt single-row frame. -/
def mlPredict (model : List ℚ → ℚ) (householdData : List (String × ℚ))
    (features : List String) : ℚ :=
  model (buildFeatureVector householdData features)

/-- A cell is clean when it is missing or a rational number. -/
def cellOk (v : Val) : Prop := v = Val.nan ∨ ∃ q : ℚ, v = Val.num q

/-!
Concrete inputs used by counterexamples and witnesses.
-/

/-- A fixed all-zero random stream (the random branches are not
exercised by the concrete inputs). -/
def rngZero : Rng := ⟨fun _ => 0⟩

/-- A household table whose only numeric column is named `hv271b`: it
survives the exact-name exclusion list, no quintile column exists, and
the fallback target path picks it as the wealth column and keeps it. -/
def c1CexInput : DataFrame := [⟨"hv271b", Dtype.numeric, [Val.num 1, Val.num 5]⟩]

/-- A single-row household table with an authoritative quintile column:
the attached target is the constant 50, which the final cleanup then
drops as a constant column. -/
def c3CexInput : DataFrame :=
  [⟨"hv270", Dtype.numeric, [Val.num 3]⟩, ⟨"hv009", Dtype.numeric, [Val.num 7]⟩]

/-- Sixty numeric columns, none matching any selection keyword. -/
def c6CexInput : DataFrame :=
  (List.range 60).map (fun i => ⟨"c" ++ toString i, Dtype.numeric, []⟩)

/-- Five numeric columns, none matching any selection keyword. -/
def c6WitnessInput : DataFrame :=
  (List.range 5).map (fun i => ⟨"z" ++ toString i, Dtype.numeric, []⟩)

/-- A numeric quintile column exercising every branch of the score
map. -/
def c2WitnessCol : Col :=
  ⟨"hv270x", Dtype.numeric,
    [Val.num 1, Val.num 2, Val.num 3, Val.num 4, Val.num 5, Val.num 9, Val.nan]⟩

/-- A feature table containing only the quintile column above. -/
def c2WitnessInput : DataFrame := [c2WitnessCol]

/-- A numeric column exercising the sentinel replacement, the maximum
replacement, and the strictly-between clause at once. -/
def c10WitnessCol : Col :=
  ⟨"a", Dtype.numeric,
    [Val.num 996, Val.num 15000, Val.num 20000, Val.nan, Val.num 3]⟩

/-- A numeric column whose only entry is negative infinity: it passes
the 80 percent missingness filter, is then coerced to all-missing, and
median imputation cannot fill it. -/
def c4CexInput : DataFrame := [⟨"a", Dtype.numeric, [Val.ninf]⟩]

/-- A numeric column exercising sentinel replacement, duplicate-row
removal and median imputation at once. -/
def c4WitnessInput : DataFrame :=
  [⟨"a", Dtype.numeric, [Val.num 996, Val.num 5, Val.num 5]⟩]

/-!
Lemmas.  The Batteries rational-number operations are restored to
semireducible so that `decide` can evaluate the embedded pipeline on
the concrete inputs above.
-/

attribute [local semireducible] Rat.add Rat.mul Rat.sub Rat.inv Rat.ofScientific

/-!
Generic lemmas about the table operations.
-/

/-- Boolean list containment agrees with membership. -/
theorem contains_iff_mem {l : List String} {a : String} :
    l.contains a = true ↔ a ∈ l := by
  simp [List.contains]

/-- Name list of `setCol`: unchanged when the label exists, extended by
the label otherwise. -/
theorem names_setCol (df : DataFrame) (n : String) (dt : Dtype) (vs : List Val) :
    names (setCol df n dt vs) =
      if (names df).contains n then names df else names df ++ [n] := by
  unfold setCol
  split
  · simp only [names, List.map_map]
    refine List.map_congr_left (fun c _ => ?_)
    by_cases h : c.name = n
    · simp [h]
    · simp [h]
  · simp [names]

/-- Membership in the names of `setCol`. -/
theorem mem_names_setCol {df : DataFrame} {n m : String} {dt : Dtype} {vs : List Val}
    (h : m ∈ names (setCol df n dt vs)) : m ∈ names df ∨ m = n := by
  rw [names_setCol] at h
  split at h
  · exact Or.inl h
  · rcases List.mem_append.mp h with h1 | h1
    · exact Or.inl h1
    · exact Or.inr (List.mem_singleton.mp h1)

/-- The assigned label is present after `setCol`. -/
theorem hasCol_setCol_self (df : DataFrame) (n : String) (dt : Dtype) (vs : List Val) :
    hasCol (setCol df n dt vs) n = true := by
  unfold hasCol
  rw [names_setCol]
  split
  · assumption
  · exact contains_iff_mem.mpr (List.mem_append_right _ (List.mem_singleton.mpr rfl))

/-- Name list of `dropCols` is the filtered name list. -/
theorem names_dropCols (df : DataFrame) (p : String → Bool) :
    names (dropCols df p) = (names df).filter (fun m => !(p m)) := by
  induction df with
  | nil => rfl
  | cons c t ih =>
      unfold dropCols at ih ⊢
      by_cases h : p c.name
      · rw [List.filter_cons_of_neg (by simp [h])]
        show names (List.filter _ t) = _
        rw [ih]
        show _ = List.filter _ (c.name :: names t)
        rw [List.filter_cons_of_neg (by simp [h])]
      · rw [List.filter_cons_of_pos (by simp [h])]
        show names (c :: List.filter _ t) = _
        show c.name :: names (List.filter _ t) = _
        rw [ih]
        show _ = List.filter _ (c.name :: names t)
        rw [List.filter_cons_of_pos (by simp [h])]

/-- Membership in the names of `dropCols`. -/
theorem mem_names_dropCols {df : DataFrame} {p : String → Bool} {m : String}
    (h : m ∈ names (dropCols df p)) : m ∈ names df ∧ p m = false := by
  rw [names_dropCols] at h
  have := List.mem_filter.mp h
  exact ⟨this.1, by simpa using this.2⟩

/-- The operation `dropCols` keeps a label the predicate rejects. -/
theorem hasCol_dropCols_of_not {df : DataFrame} {p : String → Bool} {m : String}
    (hp : p m = false) : hasCol (dropCols df p) m = hasCol df m := by
  unfold hasCol
  rw [names_dropCols]
  rw [Bool.eq_iff_iff]
  simp only [contains_iff_mem, List.mem_filter, hp]
  simp

/-- Reading with `getCol` after `setCol` at the assigned label yields the assigned
column. -/
theorem getCol_setCol_self (df : DataFrame) (n : String) (dt : Dtype) (vs : List Val) :
    getCol (setCol df n dt vs) n = some ⟨n, dt, vs⟩ := by
  unfold setCol getCol
  split
  case isTrue h =>
    rw [List.find?_map]
    have hpred : ((fun c : Col => c.name == n) ∘
        (fun c : Col => if c.name = n then (⟨n, dt, vs⟩ : Col) else c)) =
        (fun c : Col => c.name == n) := by
      funext c
      by_cases hc : c.name = n
      · simp [hc]
      · simp [hc]
    rw [hpred]
    have hmem : n ∈ names df := contains_iff_mem.mp h
    rcases List.mem_map.mp hmem with ⟨c, hcmem, hcname⟩
    have hsome : (df.find? (fun c => c.name == n)).isSome := by
      rw [List.find?_isSome]
      exact ⟨c, hcmem, by simp [hcname]⟩
    rcases Option.isSome_iff_exists.mp hsome with ⟨c0, hc0⟩
    have hc0name : c0.name = n := by
      have := List.find?_some hc0
      simpa using this
    rw [hc0]
    simp [hc0name]
  case isFalse h =>
    rw [List.find?_append]
    have hnone : df.find? (fun c => c.name == n) = none := by
      rw [List.find?_eq_none]
      intro c hc hcon
      apply h
      apply contains_iff_mem.mpr
      refine List.mem_map.mpr ⟨c, hc, ?_⟩
      simpa using hcon
    rw [hnone]
    simp

/-- Cells after `setCol` at the assigned label. -/
theorem getVals_setCol_self (df : DataFrame) (n : String) (dt : Dtype) (vs : List Val) :
    getVals (setCol df n dt vs) n = vs := by
  unfold getVals
  rw [getCol_setCol_self]
  rfl

/-- Reading with `getCol` is unchanged by dropping columns the predicate rejects. -/
theorem getCol_dropCols_of_not {df : DataFrame} {p : String → Bool} {m : String}
    (hp : p m = false) : getCol (dropCols df p) m = getCol df m := by
  unfold dropCols getCol
  rw [List.find?_filter]
  refine congrArg (List.find? · df) (funext fun c => ?_)
  by_cases hc : c.name = m
  · subst hc
    simp [hp]
  · simp [hc]

/-- Cells are unchanged by dropping columns the predicate rejects. -/
theorem getVals_dropCols_of_not {df : DataFrame} {p : String → Bool} {m : String}
    (hp : p m = false) : getVals (dropCols df p) m = getVals df m := by
  unfold getVals
  rw [getCol_dropCols_of_not hp]

/-!
Name tracking through the feature-construction stages.
-/

/-- A string containing an underscore is neither of the two leakage
names. -/
theorem ne_leak_of_underscore {s : String} (h : ('_' : Char) ∈ s.data) :
    s ≠ "hv270" ∧ s ≠ "hv271" := by
  constructor
  · intro he
    subst he
    exact absurd h (by decide)
  · intro he
    subst he
    exact absurd h (by decide)

/-- Appending strings concatenates their character data. -/
theorem data_append (s t : String) : (s ++ t).data = s.data ++ t.data := rfl

/-- An underscore in the second part survives string append. -/
theorem underscore_mem_append {s t : String} (h : ('_' : Char) ∈ t.data) :
    ('_' : Char) ∈ (s ++ t).data := by
  rw [data_append]
  exact List.mem_append_right _ h

/-- Deduplication only keeps original elements. -/
theorem mem_dedupKeepAux {l : List String} {seen : List String} {a : String}
    (h : a ∈ dedupKeepAux seen l) : a ∈ l := by
  induction l generalizing seen with
  | nil => exact absurd h (by simp [dedupKeepAux])
  | cons x t ih =>
      unfold dedupKeepAux at h
      split at h
      · exact List.mem_cons_of_mem _ (ih h)
      · rcases List.mem_cons.mp h with h1 | h1
        · exact h1 ▸ List.mem_cons_self _ _
        · exact List.mem_cons_of_mem _ (ih h1)

/-- Deduplication only keeps original elements. -/
theorem mem_dedupKeep {l : List String} {a : String} (h : a ∈ dedupKeep l) : a ∈ l :=
  mem_dedupKeepAux h

/-- Keyword matches are drawn from the candidate numeric columns. -/
theorem mem_keywordMatchedRaw {ncols : List String} {a : String}
    (h : a ∈ keywordMatchedRaw ncols) : a ∈ ncols := by
  unfold keywordMatchedRaw at h
  rcases List.mem_flatten.mp h with ⟨l, hl, hal⟩
  rcases List.mem_map.mp hl with ⟨p, _, hpl⟩
  subst hpl
  exact (List.mem_filter.mp hal).1

/-- The keyword-matched candidate set is drawn from the numeric
non-excluded columns. -/
theorem mem_keywordMatchedCols {hh : DataFrame} {a : String}
    (h : a ∈ keywordMatchedCols hh) : a ∈ numericNonExcluded hh := by
  unfold keywordMatchedCols at h
  exact mem_keywordMatchedRaw (mem_dedupKeep (List.mem_filter.mp h).1)

/-- The widened candidate set is drawn from the numeric non-excluded
columns. -/
theorem mem_widenedCols {hh : DataFrame} {a : String}
    (h : a ∈ widenedCols hh) : a ∈ numericNonExcluded hh := by
  unfold widenedCols at h
  have h1 := mem_dedupKeep (List.mem_filter.mp h).1
  split at h1
  · rcases List.mem_append.mp h1 with h2 | h2
    · exact mem_keywordMatchedCols h2
    · exact (List.mem_filter.mp (List.take_subset _ _ h2)).1
  · exact mem_keywordMatchedCols h1

/-- Every selected feature column is a numeric non-excluded column. -/
theorem mem_selectFeatureCols {hh : DataFrame} {a : String}
    (h : a ∈ selectFeatureCols hh) : a ∈ numericNonExcluded hh := by
  unfold selectFeatureCols at h
  split at h
  · exact (List.mem_filter.mp (List.take_subset _ _ h)).1
  · exact mem_widenedCols (List.mem_filter.mp h).1

/-- A numeric non-excluded column is not a leakage name. -/
theorem numericNonExcluded_ne_leak {hh : DataFrame} {a : String}
    (h : a ∈ numericNonExcluded hh) : a ≠ "hv270" ∧ a ≠ "hv271" := by
  have hc : excludeCols.contains a = false := by
    have := (List.mem_filter.mp h).2
    simpa using this
  constructor
  · intro he
    subst he
    exact absurd hc (by decide)
  · intro he
    subst he
    exact absurd hc (by decide)

/-- Base feature names: a selected feature column or one of the two
random fallback names. -/
theorem mem_names_mkBaseFeatures {hh : DataFrame} {rng : Rng} {n : String}
    (h : n ∈ names (mkBaseFeatures hh rng)) :
    n ∈ selectFeatureCols hh ∨ n = "household_size" ∨ n = "education_level" := by
  simp only [mkBaseFeatures] at h
  split at h
  · simp [names] at h
    rcases h with h | h
    · exact Or.inr (Or.inl h)
    · exact Or.inr (Or.inr h)
  · rcases List.mem_map.mp h with ⟨c, hc, hcn⟩
    rcases List.mem_filterMap.mp hc with ⟨a, ha, hget⟩
    left
    have : c.name = a := by
      have := List.find?_some hget
      simpa using this
    rw [← hcn, this]
    exact ha

/-- Name evolution of a fold whose every step only adds names
satisfying a predicate. -/
theorem mem_names_foldl {α : Type} {f : DataFrame → α → DataFrame} {Q : String → Prop}
    (hf : ∀ acc b n, n ∈ names (f acc b) → n ∈ names acc ∨ Q n) :
    ∀ (l : List α) (acc : DataFrame) (n : String),
      n ∈ names (l.foldl f acc) → n ∈ names acc ∨ Q n := by
  intro l
  induction l with
  | nil => intro acc n h; exact Or.inl h
  | cons b t ih =>
      intro acc n h
      rcases ih (f acc b) n h with h1 | h1
      · exact hf acc b n h1
      · exact Or.inr h1

/-- A ratio step adds at most one `_per_person` name. -/
theorem mem_names_addRatioStep {acc : DataFrame} {colName n : String}
    (h : n ∈ names (addRatioStep acc colName)) :
    n ∈ names acc ∨ ('_' : Char) ∈ n.data := by
  simp only [addRatioStep] at h
  split at h
  · exact Or.inl h
  · split at h
    · rcases mem_names_setCol h with h1 | h1
      · exact Or.inl h1
      · subst h1
        exact Or.inr (underscore_mem_append (by decide))
    · exact Or.inl h

/-- An interaction step adds at most one `_x_` name. -/
theorem mem_names_addInterStep {acc : DataFrame} {p : String × String} {n : String}
    (h : n ∈ names (addInterStep acc p)) :
    n ∈ names acc ∨ ('_' : Char) ∈ n.data := by
  unfold addInterStep at h
  split at h
  · exact Or.inl h
  · rcases mem_names_setCol h with h1 | h1
    · exact Or.inl h1
    · subst h1
      refine Or.inr ?_
      rw [data_append]
      refine List.mem_append_left _ ?_
      rw [data_append]
      exact List.mem_append_right _ (by decide)

/-- Derived-feature names: an original name or a name containing an
underscore. -/
theorem mem_names_addDerivedFeatures {X0 : DataFrame} {n : String}
    (h : n ∈ names (addDerivedFeatures X0)) :
    n ∈ names X0 ∨ ('_' : Char) ∈ n.data := by
  simp only [addDerivedFeatures] at h
  have step2 : ∀ X1 : DataFrame,
      n ∈ names (if 2 ≤ ((numericNames X0).take 5).length then
        (orderedPairs ((numericNames X0).take 5)).foldl addInterStep X1 else X1) →
      n ∈ names X1 ∨ ('_' : Char) ∈ n.data := by
    intro X1 hX
    split at hX
    · exact mem_names_foldl (fun acc b m hm => mem_names_addInterStep hm) _ _ _ hX
    · exact Or.inl hX
  have step1 : n ∈ names (if (names X0).contains "household_size" &&
        decide (1 < (numericNames X0).length) then
        ((numericNames X0).take 3).foldl addRatioStep X0 else X0) →
      n ∈ names X0 ∨ ('_' : Char) ∈ n.data := by
    intro hX
    split at hX
    · exact mem_names_foldl (fun acc b m hm => mem_names_addRatioStep hm) _ _ _ hX
    · exact Or.inl hX
  split at h
  case h_1 k heq =>
    rcases mem_names_setCol h with h1 | h1
    · rcases step2 _ h1 with h2 | h2
      · exact step1 h2
      · exact Or.inr h2
    · subst h1
      exact Or.inr (underscore_mem_append (by decide))
  case h_2 heq =>
    rcases step2 _ h with h2 | h2
    · exact step1 h2
    · exact Or.inr h2

/-- Categorical conversion only keeps (renamed-identically) original
columns. -/
theorem mem_names_convertCategoricals {X : DataFrame} {n : String}
    (h : n ∈ names (convertCategoricals X)) : n ∈ names X := by
  unfold convertCategoricals at h
  rcases List.mem_map.mp h with ⟨c, hc, hcn⟩
  rcases List.mem_filterMap.mp hc with ⟨c0, hc0, hsome⟩
  refine List.mem_map.mpr ⟨c0, hc0, ?_⟩
  rw [← hcn]
  by_cases hd : c0.dtype = Dtype.object
  · by_cases hall : (c0.vals.map toNumericCell).all (fun v => v == Val.nan)
    · simp [convertCategoricals, hd, hall] at hsome
    · simp only [hd, if_pos, hall] at hsome
      simp at hsome
      rw [← hsome]
  · simp [hd] at hsome
    rw [← hsome]

/-- Median filling does not change names. -/
theorem names_fillnaMedianNumeric (X : DataFrame) :
    names (fillnaMedianNumeric X) = names X := by
  unfold fillnaMedianNumeric names
  rw [List.map_map]
  refine List.map_congr_left (fun c _ => ?_)
  by_cases h : c.dtype = Dtype.numeric
  · simp [h]
  · simp [h]

/-- Infinity coercion does not change names. -/
theorem names_replaceInfNanNumeric (X : DataFrame) :
    names (replaceInfNanNumeric X) = names X := by
  unfold replaceInfNanNumeric names
  rw [List.map_map]
  refine List.map_congr_left (fun c _ => ?_)
  by_cases h : c.dtype = Dtype.numeric
  · simp [h]
  · simp [h]

/-- Missing-value handling does not change names. -/
theorem names_fillMissing (X : DataFrame) : names (fillMissing X) = names X := by
  unfold fillMissing
  rw [names_fillnaMedianNumeric, names_replaceInfNanNumeric, names_fillnaMedianNumeric]

/-- A found quintile column name contains `hv270`. -/
theorem findHv270Col_contains {X : DataFrame} {wqc : String}
    (h : findHv270Col X = some wqc) : strContainsSub (strToLower wqc) "hv270" = true := by
  have := List.find?_some h
  exact (Bool.and_eq_true _ _ |>.mp this).1

/-- A name containing `hv270` is not the target name. -/
theorem ne_pov_of_contains_hv270 {w : String}
    (h : strContainsSub (strToLower w) "hv270" = true) : w ≠ "poverty_index" := by
  intro he
  subst he
  exact absurd h (by decide)

/-- Authoritative target attachment: name provenance.  Every remaining
name is an original name or the target name, differs from the dropped
quintile column, and does not contain `hv271`. -/
theorem mem_names_attachAuthoritative {X : DataFrame} {wqc n : String}
    (h : n ∈ names (attachAuthoritative X wqc)) :
    (n ∈ names X ∨ n = "poverty_index") ∧ n ≠ wqc ∧
      strContainsSub (strToLower n) "hv271" = false := by
  unfold attachAuthoritative at h
  have h1 := mem_names_dropCols h
  have h2 := mem_names_dropCols h1.1
  refine ⟨mem_names_setCol h2.1, ?_, h1.2⟩
  intro he
  subst he
  simpa using h2.2

/-- Authoritative target attachment keeps the target column, provided
the dropped quintile column is not itself named `poverty_index`. -/
theorem hasCol_attachAuthoritative {X : DataFrame} {wqc : String}
    (hne : wqc ≠ "poverty_index") :
    hasCol (attachAuthoritative X wqc) "poverty_index" = true := by
  unfold attachAuthoritative dropColByName
  rw [hasCol_dropCols_of_not (by decide)]
  rw [hasCol_dropCols_of_not (by simpa using Ne.symm hne)]
  exact hasCol_setCol_self _ _ _ _

/-- Fallback target attachment: name provenance. -/
theorem mem_names_attachFallback {X : DataFrame} {rng : Rng} {n : String}
    (h : n ∈ names (attachFallback X rng)) :
    n ∈ names X ∨ n = "poverty_index" := by
  simp only [attachFallback] at h
  split at h
  · exact mem_names_setCol h
  · split at h
    · exact mem_names_setCol h
    · exact mem_names_setCol h

/-- Fallback target attachment keeps the target column. -/
theorem hasCol_attachFallback {X : DataFrame} {rng : Rng} :
    hasCol (attachFallback X rng) "poverty_index" = true := by
  simp only [attachFallback]
  split
  · exact hasCol_setCol_self _ _ _ _
  · split
    · exact hasCol_setCol_self _ _ _ _
    · exact hasCol_setCol_self _ _ _ _

/-- Target construction: name provenance. -/
theorem mem_names_attachTarget {X hh : DataFrame} {rng : Rng} {n : String}
    (h : n ∈ names (attachTarget X hh rng)) :
    n ∈ names X ∨ n = "poverty_index" := by
  simp only [attachTarget] at h
  split at h
  · exact Or.inl h
  · split at h
    case h_1 wqc heq =>
      exact (mem_names_attachAuthoritative h).1
    case h_2 heq =>
      split at h
      · split at h
        · have h1 := mem_names_attachAuthoritative h
          rcases h1.1 with h2 | h2
          · rcases mem_names_setCol h2 with h3 | h3
            · exact Or.inl h3
            · exact absurd h3 h1.2.1
          · exact Or.inr h2
        · split at h
          · have h1 := mem_names_attachAuthoritative h
            rcases h1.1 with h2 | h2
            · rcases mem_names_setCol h2 with h3 | h3
              · exact Or.inl h3
              · exact absurd h3 h1.2.1
            · exact Or.inr h2
          · exact mem_names_attachFallback h
      · exact mem_names_attachFallback h

/-- Final cleanup only drops columns. -/
theorem mem_names_finalCleanup {X : DataFrame} {n : String}
    (h : n ∈ names (finalCleanup X)) : n ∈ names X := by
  unfold finalCleanup at h
  rcases List.mem_map.mp h with ⟨c, hc, hcn⟩
  exact List.mem_map.mpr ⟨c, (List.mem_filter.mp (List.mem_filter.mp hc).1).1, hcn⟩

/-- Every column name of the table entering target construction is
leak-free: the selection excluded the designated names, and the derived
names all contain an underscore. -/
theorem preTarget_names_leak_free {hh : DataFrame} {rng : Rng} {n : String}
    (h : n ∈ names (fillMissing (convertCategoricals
      (addDerivedFeatures (mkBaseFeatures hh rng))))) :
    n ≠ "hv270" ∧ n ≠ "hv271" := by
  rw [names_fillMissing] at h
  have h1 := mem_names_convertCategoricals h
  rcases mem_names_addDerivedFeatures h1 with h2 | h2
  · rcases mem_names_mkBaseFeatures h2 with h3 | h3 | h3
    · exact numericNonExcluded_ne_leak (mem_selectFeatureCols h3)
    · subst h3
      exact ⟨by decide, by decide⟩
    · subst h3
      exact ⟨by decide, by decide⟩
  · exact ne_leak_of_underscore h2

/-!
Claim theorems.
-/

/-- Claim C1 (counterexample).  The claim states that the feature table
returned by `create_features` never contains a column whose name equals
or contains `hv270` or `hv271`, on every code path including the
fallback path.  On the fallback path the feature table keeps the
wealth-like column the synthetic target was derived from: for an input
whose only numeric column is named `hv271b`, the returned table still
contains that column, whose name contains `hv271`. -/
theorem claim1_counterexample :
    names (createFeatures c1CexInput rngZero) = ["hv271b", "poverty_index"] ∧
    strContainsSub (strToLower "hv271b") "hv271" = true := by
  decide

/-- Claim C1 (amended).  The feature table returned by
`create_features` never contains a column whose name exactly equals
`hv270` or `hv271`; a column whose name merely contains `hv271` can
survive on the fallback path. -/
theorem claim1_no_exact_leakage_columns (hh : DataFrame) (rng : Rng) (n : String)
    (h : n ∈ names (createFeatures hh rng)) : n ≠ "hv270" ∧ n ≠ "hv271" := by
  unfold createFeatures at h
  have h1 := mem_names_finalCleanup h
  rcases mem_names_attachTarget h1 with h2 | h2
  · exact preTarget_names_leak_free h2
  · subst h2
    exact ⟨by decide, by decide⟩

/-- Witness for the amended claim C1 at a concrete input. -/
theorem claim1_witness :
    "poverty_index" ∈ names (createFeatures c1CexInput rngZero) ∧
    ("poverty_index" ≠ "hv270" ∧ "poverty_index" ≠ "hv271") :=
  ⟨by decide, claim1_no_exact_leakage_columns c1CexInput rngZero "poverty_index" (by decide)⟩

/-- Claim C2.  The target constructor maps a numeric wealth-quintile
column through the fixed score table: ordinal 1, 2, 3, 4, 5 become
exactly 90, 70, 50, 30, 10, and every other value (unmapped ordinals
and missing cells) becomes exactly 50. -/
theorem claim2_quintile_target_map (X : DataFrame) (wqc : String) (col : Col)
    (hget : getCol X wqc = some col) (hdt : col.dtype = Dtype.numeric)
    (hwq : strContainsSub (strToLower wqc) "hv270" = true) :
    getVals (attachAuthoritative X wqc) "poverty_index" = col.vals.map quintileScoreNum ∧
    quintileScoreNum (Val.num 1) = Val.num 90 ∧
    quintileScoreNum (Val.num 2) = Val.num 70 ∧
    quintileScoreNum (Val.num 3) = Val.num 50 ∧
    quintileScoreNum (Val.num 4) = Val.num 30 ∧
    quintileScoreNum (Val.num 5) = Val.num 10 ∧
    (∀ q : ℚ, q ≠ 1 → q ≠ 2 → q ≠ 3 → q ≠ 4 → q ≠ 5 →
      quintileScoreNum (Val.num q) = Val.num 50) ∧
    quintileScoreNum Val.nan = Val.num 50 := by
  have hne : wqc ≠ "poverty_index" := ne_pov_of_contains_hv270 hwq
  refine ⟨?_, rfl, rfl, rfl, rfl, rfl, ?_, rfl⟩
  · unfold attachAuthoritative dropColByName
    rw [getVals_dropCols_of_not (by decide)]
    rw [getVals_dropCols_of_not (by simpa using Ne.symm hne)]
    rw [getVals_setCol_self, hget]
    show (if col.dtype = Dtype.numeric then col.vals.map quintileScoreNum
      else col.vals.map quintileScoreStr) = col.vals.map quintileScoreNum
    rw [if_pos hdt]
  · intro q h1 h2 h3 h4 h5
    simp [quintileScoreNum, h1, h2, h3, h4, h5]

/-- Witness for claim C2 at a concrete quintile column. -/
theorem claim2_witness :
    getCol c2WitnessInput "hv270x" = some c2WitnessCol ∧
    c2WitnessCol.dtype = Dtype.numeric ∧
    strContainsSub (strToLower "hv270x") "hv270" = true ∧
    getVals (attachAuthoritative c2WitnessInput "hv270x") "poverty_index" =
      [Val.num 90, Val.num 70, Val.num 50, Val.num 30, Val.num 10,
        Val.num 50, Val.num 50] := by
  refine ⟨by decide, by decide, by decide, ?_⟩
  rw [(claim2_quintile_target_map c2WitnessInput "hv270x" c2WitnessCol
    (by decide) (by decide) (by decide)).1]
  decide

/-- Claim C3 (counterexample).  The claim states that `create_features`
always returns a table containing a `poverty_index` column (with the
path choice observable as a status flag).  On a single-row input the
attached target is constant and the final constant-column cleanup drops
it, so the returned table has no `poverty_index` column; and the
function returns only the table, no status flag. -/
theorem claim3_counterexample :
    hasCol (createFeatures c3CexInput rngZero) "poverty_index" = false := by
  decide

/-- Claim C3 (amended).  The target-construction stage itself never
fails and always attaches a `poverty_index` column, on every path. -/
theorem claim3_target_column_always_attached (X hh : DataFrame) (rng : Rng) :
    hasCol (attachTarget X hh rng) "poverty_index" = true := by
  simp only [attachTarget]
  split
  case isTrue h => exact h
  case isFalse h =>
    split
    case h_1 wqc heq =>
      exact hasCol_attachAuthoritative
        (ne_pov_of_contains_hv270 (findHv270Col_contains heq))
    case h_2 heq =>
      split
      · split
        · exact hasCol_attachAuthoritative (by decide)
        · split
          · exact hasCol_attachAuthoritative (by decide)
          · exact hasCol_attachFallback
      · exact hasCol_attachFallback

/-- Claim C5.  The percent-error metric divides by the actual target;
at a zero-valued target the division produces an infinite (prediction 5)
or undefined (prediction 0) intermediate value, while the
within-tolerance fraction still evaluates, counting such rows as
outside tolerance. -/
theorem claim5_zero_target_infinite_error :
    errorPercentSeries [Val.num 0, Val.num 50] [Val.num 5, Val.num 45] =
      [Val.inf, Val.num 10] ∧
    errorPercentCell (Val.num 0) (Val.num 0) = Val.nan ∧
    withinFraction 10 (errorPercentSeries [Val.num 0, Val.num 50] [Val.num 5, Val.num 45]) =
      Val.num 50 := by
  decide

/-- Claim C6 (counterexample).  The claim states that fewer than 20
keyword-matched candidates make the builder widen to all remaining
numeric non-leakage columns capped at 100.  With 0 keyword matches and
60 numeric columns, the first widening step adds only 50 columns, the
final fallback does not fire, and the selection has 50 columns instead
of the claimed 60. -/
theorem claim6_counterexample :
    (keywordMatchedCols c6CexInput).length = 0 ∧
    (keywordMatchedCols c6CexInput).length < 20 ∧
    (selectFeatureCols c6CexInput).length = 50 ∧
    (((numericNonExcluded c6CexInput).filter
        (fun c => (names c6CexInput).contains c)).take 100).length = 60 ∧
    selectFeatureCols c6CexInput ≠
      ((numericNonExcluded c6CexInput).filter
        (fun c => (names c6CexInput).contains c)).take 100 := by
  decide

/-- Claim C6 (amended).  Whenever the candidate set after keyword
matching and the first widening step (which adds up to 50 numeric
columns when keyword matches number fewer than 30) still has fewer than
20 columns, the builder falls back to all numeric non-leakage columns,
capped at 100. -/
theorem claim6_widened_fallback_cap (hh : DataFrame)
    (h : (availableCols hh).length < 20) :
    selectFeatureCols hh =
      ((numericNonExcluded hh).filter (fun c => (names hh).contains c)).take 100 ∧
    (selectFeatureCols hh).length ≤ 100 := by
  constructor
  · unfold selectFeatureCols
    rw [if_pos h]
  · unfold selectFeatureCols
    rw [if_pos h]
    exact List.length_take_le _ _

/-- Witness for the amended claim C6 at a concrete input. -/
theorem claim6_witness :
    (availableCols c6WitnessInput).length < 20 ∧
    selectFeatureCols c6WitnessInput =
      ((numericNonExcluded c6WitnessInput).filter
        (fun c => (names c6WitnessInput).contains c)).take 100 :=
  ⟨by decide, (claim6_widened_fallback_cap c6WitnessInput (by decide)).1⟩

/-- Claim C7.  The prediction function builds its input vector with one
entry per saved feature name, in exactly the saved order, taking the
mapped value when present and 0 when absent, and returns the model
output on that vector. -/
theorem claim7_prediction_vector_order (d : List (String × ℚ)) (fs : List String)
    (model : List ℚ → ℚ) :
    (buildFeatureVector d fs).length = fs.length ∧
    (∀ i : ℕ, (buildFeatureVector d fs)[i]? =
      (fs[i]?).map (fun f => (d.lookup f).getD 0)) ∧
    mlPredict model d fs = model (buildFeatureVector d fs) := by
  refine ⟨List.length_map _ _, fun i => ?_, rfl⟩
  unfold buildFeatureVector
  rw [List.getElem?_map]

/-- Claim C8.  Two runs of the trainer on identical input data are
independent of the state of the global pseudo-random generator: both
the 80/20 split and the estimator receive the literal seed 42, so the
predictions on a fixed test vector coincide. -/
theorem claim8_trainer_determinism (split : SplitFn) (fit : FitFn)
    (featuresDf : DataFrame) (g1 g2 : ℕ → ℕ) (testVec : List ℚ) :
    trainRFAndPredict split fit featuresDf g1 testVec =
      trainRFAndPredict split fit featuresDf g2 testVec := rfl

/-- A rational cell is clean. -/
theorem cellOk_num (q : ℚ) : cellOk (Val.num q) := Or.inr ⟨q, rfl⟩

/-- The missing cell is clean. -/
theorem cellOk_nan : cellOk Val.nan := Or.inl rfl

/-- A cell that is not infinite and not a string is clean. -/
theorem cellOk_of_shape {v : Val} (hs : valIsStr v = false)
    (hi : v ≠ Val.inf) (hni : v ≠ Val.ninf) : cellOk v := by
  cases v
  · exact cellOk_nan
  · exact absurd rfl hi
  · exact absurd rfl hni
  · exact cellOk_num _
  · exact absurd hs (by simp [valIsStr])

/-- Addition of clean cells is clean. -/
theorem cellOk_add {a b : Val} (ha : cellOk a) (hb : cellOk b) :
    cellOk (Val.add a b) := by
  rcases ha with rfl | ⟨p, rfl⟩ <;> rcases hb with rfl | ⟨q, rfl⟩
  · exact cellOk_nan
  · exact cellOk_nan
  · exact cellOk_nan
  · exact cellOk_num _

/-- Negation of a clean cell is clean. -/
theorem cellOk_neg {a : Val} (ha : cellOk a) : cellOk (Val.neg a) := by
  rcases ha with rfl | ⟨p, rfl⟩
  · exact cellOk_nan
  · exact cellOk_num _

/-- Subtraction of clean cells is clean. -/
theorem cellOk_sub {a b : Val} (ha : cellOk a) (hb : cellOk b) :
    cellOk (Val.sub a b) :=
  cellOk_add ha (cellOk_neg hb)

/-- Multiplication of clean cells is clean. -/
theorem cellOk_mul {a b : Val} (ha : cellOk a) (hb : cellOk b) :
    cellOk (Val.mul a b) := by
  rcases ha with rfl | ⟨p, rfl⟩ <;> rcases hb with rfl | ⟨q, rfl⟩
  · exact cellOk_nan
  · exact cellOk_nan
  · exact cellOk_nan
  · exact cellOk_num _

/-- Membership after sorted insertion. -/
theorem mem_insertVal {v w : Val} {l : List Val} (h : w ∈ insertVal v l) :
    w = v ∨ w ∈ l := by
  induction l with
  | nil =>
      rw [insertVal] at h
      exact Or.inl (List.mem_singleton.mp h)
  | cons x t ih =>
      unfold insertVal at h
      split at h
      · rcases List.mem_cons.mp h with h1 | h1
        · exact Or.inl h1
        · exact Or.inr h1
      · rcases List.mem_cons.mp h with h1 | h1
        · exact Or.inr (h1 ▸ List.mem_cons_self _ _)
        · rcases ih h1 with h2 | h2
          · exact Or.inl h2
          · exact Or.inr (List.mem_cons_of_mem _ h2)

/-- Sorting only keeps original cells. -/
theorem mem_sortVals {w : Val} {l : List Val} (h : w ∈ sortVals l) : w ∈ l := by
  induction l with
  | nil =>
      rw [sortVals] at h
      exact h
  | cons x t ih =>
      unfold sortVals at h
      rcases mem_insertVal h with h1 | h1
      · exact h1 ▸ List.mem_cons_self _ _
      · exact List.mem_cons_of_mem _ (ih h1)

/-- Sorted insertion adds one cell. -/
theorem insertVal_length (v : Val) (l : List Val) :
    (insertVal v l).length = l.length + 1 := by
  induction l with
  | nil => rfl
  | cons x t ih =>
      unfold insertVal
      split
      · rfl
      · simpa using ih

/-- Sorting preserves length. -/
theorem sortVals_length (l : List Val) : (sortVals l).length = l.length := by
  induction l with
  | nil => rfl
  | cons x t ih =>
      unfold sortVals
      rw [insertVal_length, ih]
      rfl

/-- An indexed read with default is an element or the default. -/
theorem getD_mem_or_eq (l : List Val) (i : ℕ) (d : Val) :
    l.getD i d ∈ l ∨ l.getD i d = d := by
  rw [List.getD_eq_getElem?_getD]
  cases h : l[i]? with
  | none => simp
  | some x =>
      left
      simp only [Option.getD_some]
      exact List.getElem?_mem h

/-- An in-range indexed read is an element. -/
theorem getD_mem_of_lt {l : List Val} {i : ℕ} (d : Val) (h : i < l.length) :
    l.getD i d ∈ l := by
  rw [List.getD_eq_getElem?_getD, List.getElem?_eq_getElem h]
  simp only [Option.getD_some]
  exact List.getElem_mem h

/-- Interpolation over clean cells is clean. -/
theorem interpolateAt_cellOk {ys : List Val} {pos : ℚ}
    (h : ∀ v ∈ ys, cellOk v) : cellOk (interpolateAt ys pos) := by
  have hget : ∀ i : ℕ, cellOk (ys.getD i Val.nan) := by
    intro i
    rcases getD_mem_or_eq ys i Val.nan with h1 | h1
    · exact h _ h1
    · rw [h1]
      exact cellOk_nan
  simp only [interpolateAt]
  split
  · exact hget _
  · exact cellOk_add (hget _)
      (cellOk_mul (cellOk_num _) (cellOk_sub (hget _) (hget _)))

/-- A quantile of clean cells is clean. -/
theorem seriesQuantile_cellOk {vs : List Val} {q : ℚ}
    (h : ∀ v ∈ vs, cellOk v) : cellOk (seriesQuantile vs q) := by
  simp only [seriesQuantile]
  split
  · exact cellOk_nan
  · exact interpolateAt_cellOk
      (fun v hv => h _ (List.mem_filter.mp (mem_sortVals hv)).1)

/-- The median of clean cells is clean. -/
theorem seriesMedian_cellOk {vs : List Val}
    (h : ∀ v ∈ vs, cellOk v) : cellOk (seriesMedian vs) := by
  have hget : ∀ i : ℕ,
      cellOk ((sortVals (vs.filter (fun v => !(v == Val.nan)))).getD i Val.nan) := by
    intro i
    rcases getD_mem_or_eq (sortVals (vs.filter (fun v => !(v == Val.nan)))) i Val.nan
      with h1 | h1
    · exact h _ (List.mem_filter.mp (mem_sortVals h1)).1
    · rw [h1]
      exact cellOk_nan
  simp only [seriesMedian]
  split
  · exact cellOk_nan
  · split
    · exact hget _
    · exact cellOk_mul (cellOk_num _) (cellOk_add (hget _) (hget _))

/-- The median of clean cells with at least one non-missing cell is a
rational number. -/
theorem seriesMedian_num {vs : List Val} (h : ∀ v ∈ vs, cellOk v)
    (hex : ∃ v ∈ vs, v ≠ Val.nan) : ∃ m : ℚ, seriesMedian vs = Val.num m := by
  simp only [seriesMedian]
  set ys := sortVals (vs.filter (fun v => !(v == Val.nan))) with hys
  have hyok : ∀ v ∈ ys, ∃ q : ℚ, v = Val.num q := by
    intro v hv
    have hmem := List.mem_filter.mp (mem_sortVals hv)
    rcases h _ hmem.1 with h1 | h1
    · exact absurd h1 (by simpa using hmem.2)
    · exact h1
  have hpos : 0 < ys.length := by
    rcases hex with ⟨w, hw, hwn⟩
    have hwf : w ∈ vs.filter (fun v => !(v == Val.nan)) :=
      List.mem_filter.mpr ⟨hw, by simpa using hwn⟩
    rw [hys, sortVals_length]
    exact List.length_pos.mpr (List.ne_nil_of_mem hwf)
  rw [if_neg (by omega)]
  split
  · exact hyok _ (getD_mem_of_lt _ (by omega))
  · rcases hyok _ (getD_mem_of_lt Val.nan
      (show ys.length / 2 - 1 < ys.length by omega)) with ⟨a, ha⟩
    rcases hyok _ (getD_mem_of_lt Val.nan
      (show ys.length / 2 < ys.length by omega)) with ⟨b, hb⟩
    rw [ha, hb]
    exact ⟨(1/2) * (a + b), rfl⟩

/-- Clipping a rational cell to clean bounds yields a rational cell. -/
theorem clipCell_num_shape {q : ℚ} {lo hi : Val} (hlo : cellOk lo)
    (hhi : cellOk hi) : ∃ r : ℚ, clipCell (Val.num q) lo hi = Val.num r := by
  rcases hlo with rfl | ⟨a, rfl⟩ <;> rcases hhi with rfl | ⟨b, rfl⟩ <;>
    simp only [clipCell, valIsNan] <;> split_ifs <;> exact ⟨_, rfl⟩

/-- Clipping the missing cell yields the missing cell. -/
theorem clipCell_nan (lo hi : Val) : clipCell Val.nan lo hi = Val.nan := rfl

/-- Clipping a clean cell to clean bounds is clean, and keeps non-missing
cells non-missing. -/
theorem clipCell_clean {v lo hi : Val} (hv : cellOk v) (hlo : cellOk lo)
    (hhi : cellOk hi) :
    cellOk (clipCell v lo hi) ∧ (v ≠ Val.nan → clipCell v lo hi ≠ Val.nan) := by
  rcases hv with rfl | ⟨q, rfl⟩
  · exact ⟨by rw [clipCell_nan]; exact cellOk_nan, fun h => absurd rfl h⟩
  · rcases clipCell_num_shape (q := q) hlo hhi with ⟨r, hr⟩
    rw [hr]
    exact ⟨cellOk_num _, fun _ => by simp⟩

/-- Sentinel replacement keeps the cell or replaces it by `nan`. -/
theorem sentinelCell_or (u : Val) : sentinelCell u = u ∨ sentinelCell u = Val.nan := by
  unfold sentinelCell
  split
  · exact Or.inr rfl
  · exact Or.inl rfl

/-- Maximum replacement keeps the cell or replaces it by `nan`. -/
theorem replaceMaxCell_or (m w : Val) :
    replaceMaxCell m w = w ∨ replaceMaxCell m w = Val.nan := by
  unfold replaceMaxCell
  split
  · exact Or.inr rfl
  · exact Or.inl rfl

/-- The per-column sentinel step keeps name and dtype, and every output
cell is an input cell or `nan`. -/
theorem cleanColStep_fields (c : Col) :
    (cleanColStep c).name = c.name ∧ (cleanColStep c).dtype = c.dtype ∧
      ∀ v ∈ (cleanColStep c).vals, v ∈ c.vals ∨ v = Val.nan := by
  simp only [cleanColStep]
  split
  · split
    · refine ⟨rfl, rfl, fun v hv => ?_⟩
      rcases List.mem_map.mp hv with ⟨w, hw, hwv⟩
      rcases List.mem_map.mp hw with ⟨u, hu, huw⟩
      rcases replaceMaxCell_or (seriesMax (c.vals.map sentinelCell)) w with h1 | h1
      · rw [← hwv, h1, ← huw]
        rcases sentinelCell_or u with h2 | h2
        · rw [h2]
          exact Or.inl hu
        · rw [h2]
          exact Or.inr rfl
      · rw [← hwv, h1]
        exact Or.inr rfl
    · refine ⟨rfl, rfl, fun v hv => ?_⟩
      rcases List.mem_map.mp hv with ⟨u, hu, huv⟩
      rw [← huv]
      rcases sentinelCell_or u with h2 | h2
      · rw [h2]
        exact Or.inl hu
      · rw [h2]
        exact Or.inr rfl
  · exact ⟨rfl, rfl, fun v hv => Or.inl hv⟩

/-- Provenance through the table-level sentinel step. -/
theorem mem_replaceSentinelsAndMax {df : DataFrame} {c' : Col}
    (h : c' ∈ replaceSentinelsAndMax df) :
    ∃ c ∈ df, c'.name = c.name ∧ c'.dtype = c.dtype ∧
      ∀ v ∈ c'.vals, v ∈ c.vals ∨ v = Val.nan := by
  rcases List.mem_map.mp h with ⟨c, hc, hcc⟩
  rw [← hcc]
  exact ⟨c, hc, (cleanColStep_fields c).1, (cleanColStep_fields c).2.1,
    (cleanColStep_fields c).2.2⟩

/-- The high-missingness drop only removes whole columns. -/
theorem mem_dropHighMissing {df : DataFrame} {c : Col}
    (h : c ∈ dropHighMissing df) : c ∈ df := by
  simp only [dropHighMissing] at h
  exact (List.mem_filter.mp h).1

/-- Provenance through infinity coercion, with the no-infinity
guarantee on numeric columns. -/
theorem mem_replaceInfNanNumeric_col {df : DataFrame} {c' : Col}
    (h : c' ∈ replaceInfNanNumeric df) :
    ∃ c ∈ df, c'.name = c.name ∧ c'.dtype = c.dtype ∧
      (∀ v ∈ c'.vals, v ∈ c.vals ∨ v = Val.nan) ∧
      (c'.dtype = Dtype.numeric → ∀ v ∈ c'.vals, v ≠ Val.inf ∧ v ≠ Val.ninf) := by
  simp only [replaceInfNanNumeric] at h
  rcases List.mem_map.mp h with ⟨c, hc, hcc⟩
  by_cases hd : c.dtype = Dtype.numeric
  · rw [if_pos hd] at hcc
    refine ⟨c, hc, by rw [← hcc], by rw [← hcc], ?_, ?_⟩
    · intro v hv
      rw [← hcc] at hv
      rcases List.mem_map.mp hv with ⟨u, hu, huv⟩
      rw [← huv]
      split
      · exact Or.inr rfl
      · exact Or.inl hu
    · intro _ v hv
      rw [← hcc] at hv
      rcases List.mem_map.mp hv with ⟨u, hu, huv⟩
      rw [← huv]
      split
      next => exact ⟨by simp, by simp⟩
      next h2 =>
        constructor
        · intro he
          rw [he] at h2
          simp at h2
        · intro he
          rw [he] at h2
          simp at h2
  · rw [if_neg hd] at hcc
    rw [← hcc]
    exact ⟨c, hc, rfl, rfl, fun v hv => Or.inl hv, fun hdt => absurd hdt hd⟩

/-- Provenance through duplicate-row removal. -/
theorem mem_dedupRows_col {df : DataFrame} {c' : Col} (h : c' ∈ dedupRows df) :
    ∃ c ∈ df, c'.name = c.name ∧ c'.dtype = c.dtype ∧
      ∀ v ∈ c'.vals, v ∈ c.vals ∨ v = Val.nan := by
  simp only [dedupRows] at h
  rcases List.mem_map.mp h with ⟨c, hc, hcc⟩
  rw [← hcc]
  refine ⟨c, hc, rfl, rfl, fun v hv => ?_⟩
  rcases List.mem_map.mp hv with ⟨i, _, hiv⟩
  rw [← hiv]
  exact getD_mem_or_eq _ _ _

/-- Provenance through `clean_dhs_data`: names and dtypes come from the
input, every cell is an input cell or `nan`, and numeric columns carry
no infinities. -/
theorem cleanDhsData_col {df : DataFrame} {c : Col} (h : c ∈ cleanDhsData df) :
    ∃ c0 ∈ df, c.name = c0.name ∧ c.dtype = c0.dtype ∧
      (∀ v ∈ c.vals, v ∈ c0.vals ∨ v = Val.nan) ∧
      (c.dtype = Dtype.numeric → ∀ v ∈ c.vals, v ≠ Val.inf ∧ v ≠ Val.ninf) := by
  unfold cleanDhsData at h
  rcases mem_dedupRows_col h with ⟨c1, hc1, hn1, hd1, hv1⟩
  rcases mem_replaceInfNanNumeric_col hc1 with ⟨c2, hc2, hn2, hd2, hv2, hinf2⟩
  have hc3 := mem_dropHighMissing hc2
  rcases mem_replaceSentinelsAndMax hc3 with ⟨c0, hc0, hn3, hd3, hv3⟩
  refine ⟨c0, hc0, by rw [hn1, hn2, hn3], by rw [hd1, hd2, hd3], ?_, ?_⟩
  · intro v hv
    rcases hv1 v hv with h1 | h1
    · rcases hv2 v h1 with h2 | h2
      · rcases hv3 v h2 with h3 | h3
        · exact Or.inl h3
        · exact Or.inr h3
      · exact Or.inr h2
    · exact Or.inr h1
  · intro hdt v hv
    rcases hv1 v hv with h1 | h1
    · exact hinf2 (by rw [← hd1]; exact hdt) v h1
    · rw [h1]
      exact ⟨by simp, by simp⟩

/-- Provenance through outlier clipping: on columns of clean cells the
output cells are clean, non-missing cells survive, and emptiness is
preserved. -/
theorem handleOutliersIqr_col {df : DataFrame} {c' : Col}
    (h : c' ∈ handleOutliersIqr df) :
    ∃ c ∈ df, c'.name = c.name ∧ c'.dtype = c.dtype ∧
      (c.vals = [] → c'.vals = []) ∧
      ((∀ v ∈ c.vals, cellOk v) →
        (∀ v ∈ c'.vals, cellOk v) ∧
        ((∃ v ∈ c.vals, v ≠ Val.nan) → ∃ v ∈ c'.vals, v ≠ Val.nan)) := by
  simp only [handleOutliersIqr] at h
  rcases List.mem_map.mp h with ⟨c, hc, hcc⟩
  by_cases hd : c.dtype = Dtype.numeric
  · rw [if_pos hd] at hcc
    refine ⟨c, hc, by rw [← hcc], by rw [← hcc], ?_, ?_⟩
    · intro hemp
      rw [← hcc, hemp]
      rfl
    · intro hok
      have hlo : cellOk (Val.sub (seriesQuantile c.vals (1/4))
          (Val.mul (Val.num (3/2))
            (Val.sub (seriesQuantile c.vals (3/4)) (seriesQuantile c.vals (1/4))))) :=
        cellOk_sub (seriesQuantile_cellOk hok)
          (cellOk_mul (cellOk_num _)
            (cellOk_sub (seriesQuantile_cellOk hok) (seriesQuantile_cellOk hok)))
      have hhi : cellOk (Val.add (seriesQuantile c.vals (3/4))
          (Val.mul (Val.num (3/2))
            (Val.sub (seriesQuantile c.vals (3/4)) (seriesQuantile c.vals (1/4))))) :=
        cellOk_add (seriesQuantile_cellOk hok)
          (cellOk_mul (cellOk_num _)
            (cellOk_sub (seriesQuantile_cellOk hok) (seriesQuantile_cellOk hok)))
      constructor
      · intro v hv
        rw [← hcc] at hv
        rcases List.mem_map.mp hv with ⟨w, hw, hwv⟩
        rw [← hwv]
        exact (clipCell_clean (hok w hw) hlo hhi).1
      · rintro ⟨w, hw, hwn⟩
        refine ⟨_, ?_, (clipCell_clean (hok w hw) hlo hhi).2 hwn⟩
        rw [← hcc]
        exact List.mem_map.mpr ⟨w, hw, rfl⟩
  · rw [if_neg hd] at hcc
    rw [← hcc]
    exact ⟨c, hc, rfl, rfl, fun he => he, fun hok => ⟨hok, fun hex => hex⟩⟩

/-- Provenance through median imputation: a numeric column of clean
cells with at least one non-missing cell (or no cells) comes out with
rational cells only. -/
theorem imputeMissingValues_col {df : DataFrame} {c' : Col}
    (h : c' ∈ imputeMissingValues df) :
    ∃ c ∈ df, c'.name = c.name ∧ c'.dtype = c.dtype ∧
      (c.dtype = Dtype.numeric → (∀ v ∈ c.vals, cellOk v) →
        (c.vals = [] ∨ ∃ v ∈ c.vals, v ≠ Val.nan) →
        ∀ v ∈ c'.vals, ∃ q : ℚ, v = Val.num q) := by
  simp only [imputeMissingValues] at h
  rcases List.mem_map.mp h with ⟨c, hc, hcc⟩
  by_cases hd : c.dtype = Dtype.numeric
  · rw [if_pos hd] at hcc
    refine ⟨c, hc, by rw [← hcc], by rw [← hcc], ?_⟩
    intro _ hok hnn v hv
    rw [← hcc] at hv
    rcases List.mem_map.mp hv with ⟨w, hw, hwv⟩
    rcases hnn with hemp | hex
    · rw [hemp] at hw
      exact absurd hw (List.not_mem_nil w)
    · rcases seriesMedian_num hok hex with ⟨m, hm⟩
      by_cases hwn : w = Val.nan
      · refine ⟨m, ?_⟩
        rw [← hwv, if_pos (by simp [hwn]), hm]
      · rcases hok w hw with h1 | h1
        · exact absurd h1 hwn
        · rcases h1 with ⟨q, hq⟩
          refine ⟨q, ?_⟩
          rw [← hwv, if_neg (by simp [hwn]), hq]
  · rw [if_neg hd] at hcc
    refine ⟨c, hc, by rw [← hcc], by rw [← hcc], ?_⟩
    intro hdt
    exact absurd hdt hd

/-- A strict cell comparison implies the cells differ. -/
theorem valLtB_irrefl (a : Val) : valLtB a a = false := by
  cases a <;> simp [valLtB]

/-- A strict cell comparison implies the cells differ. -/
theorem ne_of_valLtB {a b : Val} (h : valLtB a b = true) : a ≠ b := by
  intro he
  subst he
  rw [valLtB_irrefl] at h
  exact absurd h (by simp)

/-- A cell strictly above 10000 is not a sentinel code. -/
theorem sentinel_not_contains_of_gt {v : Val}
    (h : valGtB v (Val.num 10000) = true) : sentinelList.contains v = false := by
  cases v with
  | nan => simp [valGtB, valLtB] at h
  | inf => decide
  | ninf => simp [valGtB, valLtB] at h
  | str s => simp [valGtB, valLtB] at h
  | num q =>
      have hq : (10000 : ℚ) < q := by simpa [valGtB, valLtB] using h
      have h996 : q ≠ 996 := by intro he; rw [he] at hq; norm_num at hq
      have h997 : q ≠ 997 := by intro he; rw [he] at hq; norm_num at hq
      have h998 : q ≠ 998 := by intro he; rw [he] at hq; norm_num at hq
      have h999 : q ≠ 999 := by intro he; rw [he] at hq; norm_num at hq
      simp [sentinelList, h996, h997, h998, h999]

/-- Claim C10 (counterexample).  The claim states that in a numeric
column whose maximum exceeds 10000 only the cells equal to the maximum
are replaced by the missing marker.  In the column `[996, 20000]` the
maximum is 20000, yet the sentinel cell 996 — not equal to the maximum —
is replaced as well. -/
theorem claim10_counterexample :
    (cleanColStep ⟨"a", Dtype.numeric, [Val.num 996, Val.num 20000]⟩).vals =
      [Val.nan, Val.nan] ∧
    seriesMax ([Val.num 996, Val.num 20000].map sentinelCell) = Val.num 20000 ∧
    (Val.num 996 : Val) ≠ Val.num 20000 := by
  decide

/-- Claim C10 (amended).  In every numeric column the sentinel codes
996, 997, 998, 999 are replaced by the missing marker; in addition,
when the column maximum computed after sentinel replacement exceeds
10000, the cells equal to that maximum are also replaced; every other
cell — in particular every value strictly between 10000 and the
maximum — is left unchanged. -/
theorem claim10_sentinel_and_max_replacement (c : Col)
    (hdt : c.dtype = Dtype.numeric) :
    (∀ i : ℕ, (cleanColStep c).vals[i]? =
      (c.vals[i]?).map (fun v =>
        if sentinelList.contains v ||
            (valGtB (seriesMax (c.vals.map sentinelCell)) (Val.num 10000) &&
              v == seriesMax (c.vals.map sentinelCell))
        then Val.nan else v)) ∧
    (∀ i : ℕ, ∀ v : Val, c.vals[i]? = some v →
      valGtB v (Val.num 10000) = true →
      valLtB v (seriesMax (c.vals.map sentinelCell)) = true →
      (cleanColStep c).vals[i]? = some v) := by
  have hmain : ∀ i : ℕ, (cleanColStep c).vals[i]? =
      (c.vals[i]?).map (fun v =>
        if sentinelList.contains v ||
            (valGtB (seriesMax (c.vals.map sentinelCell)) (Val.num 10000) &&
              v == seriesMax (c.vals.map sentinelCell))
        then Val.nan else v) := by
    intro i
    simp only [cleanColStep, hdt, if_true]
    split
    case isTrue h =>
      show ((c.vals.map sentinelCell).map
        (replaceMaxCell (seriesMax (c.vals.map sentinelCell))))[i]? = _
      rw [List.getElem?_map, List.getElem?_map, Option.map_map]
      refine congrArg (fun fn => Option.map fn c.vals[i]?) (funext fun v => ?_)
      by_cases hs : v ∈ sentinelList
      · have hsc : sentinelList.contains v = true := by simpa using hs
        simp [Function.comp, sentinelCell, hsc, hs, replaceMaxCell]
      · have hsc : sentinelList.contains v = false := by simpa using hs
        by_cases he : v = seriesMax (c.vals.map sentinelCell)
        · rw [he] at hsc
          have hsm : seriesMax (c.vals.map sentinelCell) ∉ sentinelList := by
            simpa using hsc
          simp [Function.comp, sentinelCell, hsc, hsm, replaceMaxCell, he, h]
        · simp [Function.comp, sentinelCell, hsc, hs, replaceMaxCell, h, he]
    case isFalse h =>
      show ((c.vals.map sentinelCell))[i]? = _
      rw [List.getElem?_map]
      refine congrArg (fun fn => Option.map fn c.vals[i]?) (funext fun v => ?_)
      have hb : valGtB (seriesMax (c.vals.map sentinelCell)) (Val.num 10000) = false := by
        simpa using h
      by_cases hs : v ∈ sentinelList
      · have hsc : sentinelList.contains v = true := by simpa using hs
        simp [sentinelCell, hsc, hs, hb]
      · have hsc : sentinelList.contains v = false := by simpa using hs
        simp [sentinelCell, hsc, hs, hb]
  refine ⟨hmain, fun i v hv hgt hlt => ?_⟩
  rw [hmain i, hv]
  have hs : v ∉ sentinelList := by
    simpa using sentinel_not_contains_of_gt hgt
  have hne := ne_of_valLtB hlt
  simp [hs, hne]

/-- Witness for the amended claim C10 at a concrete column. -/
theorem claim10_witness :
    c10WitnessCol.dtype = Dtype.numeric ∧
    (cleanColStep c10WitnessCol).vals[1]? = some (Val.num 15000) ∧
    (cleanColStep c10WitnessCol).vals[0]? = some Val.nan := by
  refine ⟨rfl, ?_, ?_⟩
  · exact (claim10_sentinel_and_max_replacement c10WitnessCol rfl).2 1
      (Val.num 15000) (by decide) (by decide) (by decide)
  · have h := (claim10_sentinel_and_max_replacement c10WitnessCol rfl).1 0
    rw [h]
    decide

/-- Claim C4 (counterexample).  The claim states that the Cleaner
output has zero missing numeric values and zero infinite values for
any input table.  A numeric column holding only `-inf` is kept by the
missingness drop (0 percent missing), turned into an all-missing column
by the infinity coercion, and left missing by the median imputation. -/
theorem claim4_counterexample :
    getVals (cleanerOutput c4CexInput) "a" = [Val.nan] ∧
    colDtype (cleanerOutput c4CexInput) "a" = Dtype.numeric := by
  decide

/-- Claim C4 (amended).  For any input table whose numeric columns hold
no label strings, the Cleaner output has no missing, no infinite cell
in its numeric columns, provided every numeric column surviving
`clean_dhs_data` either is empty or still holds a non-missing cell. -/
theorem claim4_cleaner_output_clean (df : DataFrame)
    (hwf : ∀ c ∈ df, c.dtype = Dtype.numeric → ∀ v ∈ c.vals, valIsStr v = false)
    (hnn : ∀ c ∈ cleanDhsData df, c.dtype = Dtype.numeric →
      c.vals = [] ∨ ∃ v ∈ c.vals, v ≠ Val.nan) :
    ∀ c ∈ cleanerOutput df, c.dtype = Dtype.numeric →
      ∀ v ∈ c.vals, v ≠ Val.nan ∧ v ≠ Val.inf ∧ v ≠ Val.ninf := by
  intro c hc hdt v hv
  unfold cleanerOutput at hc
  rcases imputeMissingValues_col hc with ⟨c2, hc2, hn2, hd2, himp⟩
  rcases handleOutliersIqr_col hc2 with ⟨c1, hc1, hn1, hd1, hemp, hout⟩
  rcases cleanDhsData_col hc1 with ⟨c0, hc0, hn0, hd0, hprov, hinf⟩
  have hd2n : c2.dtype = Dtype.numeric := by
    rw [← hd2]
    exact hdt
  have hd1n : c1.dtype = Dtype.numeric := by
    rw [← hd1]
    exact hd2n
  have hc1ok : ∀ w ∈ c1.vals, cellOk w := by
    intro w hw
    rcases hprov w hw with h1 | h1
    · have hs : valIsStr w = false :=
        hwf c0 hc0 (by rw [← hd0]; exact hd1n) w h1
      have hni := hinf hd1n w hw
      exact cellOk_of_shape hs hni.1 hni.2
    · rw [h1]
      exact cellOk_nan
  have hnn2 : c2.vals = [] ∨ ∃ w ∈ c2.vals, w ≠ Val.nan := by
    rcases hnn c1 hc1 hd1n with h1 | h1
    · exact Or.inl (hemp h1)
    · exact Or.inr ((hout hc1ok).2 h1)
  rcases himp hd2n (hout hc1ok).1 hnn2 v hv with ⟨q, hq⟩
  rw [hq]
  exact ⟨by simp, by simp, by simp⟩

/-- Witness for the amended claim C4 at a concrete table. -/
theorem claim4_witness :
    (∀ c ∈ c4WitnessInput, c.dtype = Dtype.numeric →
      ∀ v ∈ c.vals, valIsStr v = false) ∧
    (∀ c ∈ cleanDhsData c4WitnessInput, c.dtype = Dtype.numeric →
      c.vals = [] ∨ ∃ v ∈ c.vals, v ≠ Val.nan) ∧
    (∀ c ∈ cleanerOutput c4WitnessInput, c.dtype = Dtype.numeric →
      ∀ v ∈ c.vals, v ≠ Val.nan ∧ v ≠ Val.inf ∧ v ≠ Val.ninf) :=
  ⟨by decide, by decide,
    claim4_cleaner_output_clean c4WitnessInput (by decide) (by decide)⟩

/-- Claim C9.  `prepare_train_test_split` raises its `ValueError` if
and only if the feature table has no `poverty_index` column; when the
column is present it proceeds to the split. -/
theorem claim9_split_error_iff_no_target (split : SplitFn) (g : ℕ → ℕ)
    (df : DataFrame) :
    (prepareTrainTestSplit split g df =
        Except.error "Target variable poverty_index not found") ↔
      hasCol df "poverty_index" = false := by
  unfold prepareTrainTestSplit
  cases h : hasCol df "poverty_index"
  · simp [h]
  · simp [h]

end IPMAS
